import Mathlib

/-!
# Verification of the WCS utilities of sims_GalSimInterface

Shallow embedding of `python/lsst/sims/GalSimInterface/wcsUtils/WcsUtils.py`
over the real numbers.  Floating-point values are modelled as reals; the
`NaN` produced by `arccos` outside `[-1, 1]` (and by the division at the
native pole) is modelled by the explicit predicate `raIsNaN` that
characterises exactly the inputs on which the float computation produces a
non-real candidate.
-/

namespace WcsUtils

open Real

noncomputable section

open scoped Classical

/-- `numpy.sign`: 1 for positive, -1 for negative, 0 for zero. -/
def npSign (x : ℝ) : ℝ := if 0 < x then 1 else if x < 0 then -1 else 0

/-- `numpy.arctan2 y x` (the C99 `atan2` convention). -/
def arctan2 (y x : ℝ) : ℝ :=
  if 0 < x then arctan (y / x)
  else if x < 0 then
    if 0 ≤ y then arctan (y / x) + π else arctan (y / x) - π
  else if 0 < y then π / 2
  else if y < 0 then -(π / 2)
  else 0

/-- Lines 47-49 (and identically 158-160) of `WcsUtils.py`: the Cartesian
embedding `x = -cos(dec)*sin(ra), y = cos(dec)*cos(ra), z = sin(dec)`. -/
def embedVec (lon lat : ℝ) : ℝ × ℝ × ℝ :=
  (-1 * cos lat * sin lon, cos lat * cos lon, sin lat)

/-- Lines 51-67 of `WcsUtils.py`: rotate about the z axis by
`beta = -raPointing`, then about the x axis by `alpha = decPointing - pi/2`. -/
def rotFwd (raPointing decPointing : ℝ) (v : ℝ × ℝ × ℝ) : ℝ × ℝ × ℝ :=
  let ca := cos (decPointing - π / 2)
  let sa := sin (decPointing - π / 2)
  let cb := cos (-1 * raPointing)
  let sb := sin (-1 * raPointing)
  let u0 := cb * v.1 + -1 * sb * v.2.1
  let u1 := sb * v.1 + cb * v.2.1
  let u2 := v.2.2
  (u0, ca * u1 + sa * u2, -1 * sa * u1 + ca * u2)

/-- Lines 162-178 of `WcsUtils.py`: rotate about the x axis by
`alpha = pi/2 - decPointing`, then about the z axis by `beta = raPointing`. -/
def rotInv (raPointing decPointing : ℝ) (v : ℝ × ℝ × ℝ) : ℝ × ℝ × ℝ :=
  let ca := cos (π / 2 - decPointing)
  let sa := sin (π / 2 - decPointing)
  let cb := cos raPointing
  let sb := sin raPointing
  let u0 := v.1
  let u1 := ca * v.2.1 + sa * v.2.2
  let u2 := -1 * sa * v.2.1 + ca * v.2.2
  (cb * u0 + -1 * sb * u1, sb * u0 + cb * u1, u2)

/-- Line 69: `cc = sqrt(v2[0]*v2[0] + v2[1]*v2[1])`. -/
def ccOf (v : ℝ × ℝ × ℝ) : ℝ := Real.sqrt (v.1 * v.1 + v.2.1 * v.2.1)

/-- Line 70: `latOut = arctan2(v2[2], cc)`. -/
def latOf (v : ℝ × ℝ × ℝ) : ℝ := arctan2 v.2.2 (ccOf v)

/-- Line 72: `_y = v2[1]/cos(latOut)`. -/
def yTilde (v : ℝ × ℝ × ℝ) : ℝ := v.2.1 / cos (latOf v)

/-- Line 73: `_ra = arccos(_y)`. -/
def raTilde (v : ℝ × ℝ × ℝ) : ℝ := arccos (yTilde v)

/-- Line 74: `_x = -sin(_ra)`. -/
def xTilde (v : ℝ × ℝ × ℝ) : ℝ := -sin (raTilde v)

/-- The condition under which the float computation of `_ra` (line 73)
produces `NaN`: the division by `cos(latOut)` blows up, or the argument of
`arccos` falls outside `[-1, 1]`. -/
def raIsNaN (v : ℝ × ℝ × ℝ) : Prop := cos (latOf v) = 0 ∨ 1 < |yTilde v|

/-- Lines 79-80 (and identically 85-86, 191-192, 197-198): the quadrant
disambiguation condition under which `_ra` is replaced by `2*pi - _ra`. -/
def flipCond (v : ℝ × ℝ × ℝ) : Prop :=
  (1e-9 < |xTilde v| ∧ npSign (xTilde v) ≠ npSign v.1) ∨
  (1e-9 < |yTilde v| ∧ npSign (yTilde v) ≠ npSign v.2.1)

/-- Lines 76-83 of `WcsUtils.py`: the scalar branch computing the native
longitude from the rotated vector. -/
def lonOf (v : ℝ × ℝ × ℝ) : ℝ :=
  if raIsNaN v then 0 else if flipCond v then 2 * π - raTilde v else raTilde v

/-- Lines 69-92 of `WcsUtils.py` (duplicated verbatim at lines 181-205):
extraction of `(lon, lat)` from a rotated Cartesian vector. -/
def lonLatFromVec (v : ℝ × ℝ × ℝ) : ℝ × ℝ := (lonOf v, latOf v)

/-- `_nativeLonLatFromRaDec` (lines 15-92), scalar path, radians. -/
def _nativeLonLatFromRaDec (ra dec raPointing decPointing : ℝ) : ℝ × ℝ :=
  lonLatFromVec (rotFwd raPointing decPointing (embedVec ra dec))

/-- `_raDecFromNativeLonLat` (lines 134-205), scalar path, radians. -/
def _raDecFromNativeLonLat (lon lat raPointing decPointing : ℝ) : ℝ × ℝ :=
  lonLatFromVec (rotInv raPointing decPointing (embedVec lon lat))

/-- `numpy.radians`. -/
def radiansOf (x : ℝ) : ℝ := x * π / 180

/-- `numpy.degrees`. -/
def degreesOf (x : ℝ) : ℝ := x * 180 / π

/-- `nativeLonLatFromRaDec` (lines 95-131): degrees-level wrapper. -/
def nativeLonLatFromRaDec (ra dec raPointing decPointing : ℝ) : ℝ × ℝ :=
  let p := _nativeLonLatFromRaDec (radiansOf ra) (radiansOf dec)
    (radiansOf raPointing) (radiansOf decPointing)
  (degreesOf p.1, degreesOf p.2)

/-- `raDecFromNativeLonLat` (lines 208-237): degrees-level wrapper. -/
def raDecFromNativeLonLat (lon lat raPointing decPointing : ℝ) : ℝ × ℝ :=
  let p := _raDecFromNativeLonLat (radiansOf lon) (radiansOf lat)
    (radiansOf raPointing) (radiansOf decPointing)
  (degreesOf p.1, degreesOf p.2)

/-- The flip rule exactly as the spec words it (claim C2): the sign of
`sin(candidate)` — rather than of the code's `_x = -sin(candidate)` — is
compared against the rotated x-component. -/
def specFlipC2 (v : ℝ × ℝ × ℝ) : Prop :=
  (1e-9 < |sin (raTilde v)| ∧ npSign (sin (raTilde v)) ≠ npSign v.1) ∨
  (1e-9 < |yTilde v| ∧ npSign (yTilde v) ≠ npSign v.2.1)


/-- Longitude extraction with the second (y-sign) clause of the flip
condition deleted. -/
def lonOfNoY (v : ℝ × ℝ × ℝ) : ℝ :=
  if raIsNaN v then 0
  else if 1e-9 < |xTilde v| ∧ npSign (xTilde v) ≠ npSign v.1 then 2 * π - raTilde v
  else raTilde v

/-- `_nativeLonLatFromRaDec` with the y-clause deleted. -/
def _nativeLonLatFromRaDecNoY (ra dec raPointing decPointing : ℝ) : ℝ × ℝ :=
  (lonOfNoY (rotFwd raPointing decPointing (embedVec ra dec)),
   latOf (rotFwd raPointing decPointing (embedVec ra dec)))

/-- `_raDecFromNativeLonLat` with the y-clause deleted. -/
def _raDecFromNativeLonLatNoY (lon lat raPointing decPointing : ℝ) : ℝ × ℝ :=
  (lonOfNoY (rotInv raPointing decPointing (embedVec lon lat)),
   latOf (rotInv raPointing decPointing (embedVec lon lat)))


/-! ### Claim C8: the batched (numpy-array) code path of lines 84-90

A 1-D numpy array is modelled as a `List ℝ` and each elementwise numpy
operation as a `zipWith`/`map`.  Lines 47-74 are shared between the scalar
and the array branch of the source and operate elementwise, so the rotated
vectors are built per element with the same `rotFwd`/`embedVec` used by the
scalar path; the intermediate arrays `_ra`, `_x`, `_y`, `v2[0]`, `v2[1]` are
then zipped exactly as the list comprehension of lines 85-88 does, and the
final `isnan` replacement of line 90 is modelled by the `raIsNaN` predicate
of the element that produced the candidate. -/

/-- `_nativeLonLatFromRaDec` on equal-length arrays: the branch of
lines 84-90. -/
def _nativeLonLatFromRaDecVec (ras decs : List ℝ) (raPointing decPointing : ℝ) :
    List ℝ × List ℝ :=
  let v2s := List.zipWith (fun r d => rotFwd raPointing decPointing (embedVec r d)) ras decs
  let lats := v2s.map latOf
  let yArr := v2s.map yTilde
  let raArr := v2s.map raTilde
  let xArr := v2s.map xTilde
  let v0Arr := v2s.map fun v => v.1
  let v1Arr := v2s.map fun v => v.2.1
  let lonRaw := (((((raArr.zip xArr).zip yArr).zip v0Arr).zip v1Arr).map fun q =>
    if (1e-9 < |q.1.1.1.2| ∧ npSign q.1.1.1.2 ≠ npSign q.1.2) ∨
       (1e-9 < |q.1.1.2| ∧ npSign q.1.1.2 ≠ npSign q.2)
    then 2 * π - q.1.1.1.1 else q.1.1.1.1)
  let lons := List.zipWith (fun ll v => if raIsNaN v then 0 else ll) lonRaw v2s
  (lons, lats)


/-! ### TanFitter: the sampling grid and the linear-solve stage of
`tanWcsFromDetector` (lines 290-358).

The surrounding calls into the external camera-geometry and astrometry
services are outside this repository; the stage below is parametrised by
their outputs: the tangent-pixel bounding box, and the per-sample pixel
offsets `dx_i, dy_i` (line 337-338) together with the intermediate world
coordinates `u_i, v_i` (lines 333-335). -/

/-- One sample of the fit after steps 7-8: pixel offsets from the reference
pixel and gnomonic intermediate-world coordinates. -/
structure FitSample where
  dx : ℝ
  dy : ℝ
  u : ℝ
  v : ℝ

/-- Line 348: `xsq = numpy.power(delta_xList, 2).sum()`. -/
def xsq (s : List FitSample) : ℝ := (s.map fun p => p.dx ^ 2).sum

/-- Line 349: `ysq = numpy.power(delta_yList, 2).sum()`. -/
def ysq (s : List FitSample) : ℝ := (s.map fun p => p.dy ^ 2).sum

/-- Line 347: `offDiag = (delta_yList*delta_xList).sum()`. -/
def offDiag (s : List FitSample) : ℝ := (s.map fun p => p.dy * p.dx).sum

/-- Lines 340-345: the right-hand side `bVector`. -/
def bVector (s : List FitSample) : Fin 4 → ℝ :=
  ![(s.map fun p => p.dx * p.u).sum, (s.map fun p => p.dy * p.u).sum,
    (s.map fun p => p.dx * p.v).sum, (s.map fun p => p.dy * p.v).sum]

/-- Lines 351-356: the 4x4 matrix `aMatrix`. -/
def aMatrix (s : List FitSample) : Matrix (Fin 4) (Fin 4) ℝ :=
  !![xsq s, offDiag s, 0, 0;
     offDiag s, ysq s, 0, 0;
     0, 0, xsq s, offDiag s;
     0, 0, offDiag s, ysq s]

/-- The 2x2 normal-equations block built from the sample sums. -/
def normalMat (s : List FitSample) : Matrix (Fin 2) (Fin 2) ℝ :=
  !![xsq s, offDiag s; offDiag s, ysq s]

/-- `numpy.linalg.solve`: the unique solution of `A x = b` for invertible
`A`; the `LinAlgError` raised on a singular matrix is modelled as `none`. -/
def linSolve {n : ℕ} (A : Matrix (Fin n) (Fin n) ℝ) (b : Fin n → ℝ) :
    Option (Fin n → ℝ) :=
  if A.det = 0 then none else some ((A.det)⁻¹ • A.adjugate.mulVec b)

/-- Line 358: `coeffs = numpy.linalg.solve(aMatrix, bVector)`. -/
def coeffsFit (s : List FitSample) : Option (Fin 4 → ℝ) :=
  linSolve (aMatrix s) (bVector s)

/-- Sum of squared residuals of the linear model `f ≈ a*dx + b*dy` over the
samples. -/
def ssr (f : FitSample → ℝ) (s : List FitSample) (a b : ℝ) : ℝ :=
  (s.map fun p => (f p - (a * p.dx + b * p.dy)) ^ 2).sum

/-- `numpy.arange(start, stop, step)`: the `ceil((stop - start)/step)`
values `start + k*step`. -/
def arange (start stop step : ℝ) : List ℝ :=
  (List.range (⌈(stop - start) / step⌉.toNat)).map fun k : ℕ => start + (k : ℝ) * step

/-- Lines 294-308: the nested sampling loops over the tangent-pixel
bounding box.  `dy` is computed at line 303 but never used: both the step
and the stop margin of the inner (y) loop use `dx` (lines 304-305); it is
bound as `_dy` here only to silence the unused-variable linter. -/
def sampleGrid (xTanPixMin xTanPixMax yTanPixMin yTanPixMax : ℝ) : List (ℝ × ℝ) :=
  let dx := 0.5 * (xTanPixMax - xTanPixMin)
  let _dy := 0.5 * (yTanPixMax - yTanPixMin)
  (arange xTanPixMin (xTanPixMax + 0.5 * dx) dx).flatMap fun xx =>
    (arange yTanPixMin (yTanPixMax + 0.5 * dx) dx).map fun yy => (xx, yy)

/-- Modelled from the spec (fitTanWcs step 2, the wording of claim C4):
"step size is half the box extent in each axis" — the y loop advances by
`dy` with stop margin `0.5*dy`. -/
def specSampleGrid (xMin xMax yMin yMax : ℝ) : List (ℝ × ℝ) :=
  let dx := 0.5 * (xMax - xMin)
  let dy := 0.5 * (yMax - yMin)
  (arange xMin (xMax + 0.5 * dx) dx).flatMap fun xx =>
    (arange yMin (yMax + 0.5 * dy) dy).map fun yy => (xx, yy)


/-! ### Basic facts about the helper functions -/

lemma npSign_pos {a : ℝ} (h : 0 < a) : npSign a = 1 := if_pos h

lemma npSign_neg {a : ℝ} (h : a < 0) : npSign a = -1 := by
  rw [npSign, if_neg (by linarith), if_pos h]

lemma npSign_zero : npSign 0 = 0 := by simp [npSign]

lemma npSign_div_pos (a : ℝ) {c : ℝ} (hc : 0 < c) : npSign (a / c) = npSign a := by
  rcases lt_trichotomy a 0 with h | h | h
  · rw [npSign_neg h, npSign_neg (div_neg_of_neg_of_pos h hc)]
  · simp [h, npSign_zero]
  · rw [npSign_pos h, npSign_pos (div_pos h hc)]

lemma ccOf_nonneg (v : ℝ × ℝ × ℝ) : 0 ≤ ccOf v := Real.sqrt_nonneg _

lemma ccOf_sq (v : ℝ × ℝ × ℝ) : ccOf v ^ 2 = v.1 ^ 2 + v.2.1 ^ 2 := by
  have h : 0 ≤ v.1 * v.1 + v.2.1 * v.2.1 :=
    add_nonneg (mul_self_nonneg _) (mul_self_nonneg _)
  rw [ccOf, Real.sq_sqrt h]; ring

lemma latOf_eq_arctan {v : ℝ × ℝ × ℝ} (h : 0 < ccOf v) :
    latOf v = arctan (v.2.2 / ccOf v) := by
  rw [latOf, arctan2, if_pos h]

lemma cos_latOf_nonneg (v : ℝ × ℝ × ℝ) : 0 ≤ cos (latOf v) := by
  rcases lt_or_eq_of_le (ccOf_nonneg v) with h | h
  · rw [latOf_eq_arctan h, cos_arctan]
    exact div_nonneg zero_le_one (Real.sqrt_nonneg _)
  · rw [latOf, arctan2, if_neg (by rw [← h]; exact lt_irrefl 0),
      if_neg (by rw [← h]; exact lt_irrefl 0)]
    rcases lt_trichotomy v.2.2 0 with h2 | h2 | h2
    · rw [if_neg (by linarith), if_pos h2, cos_neg, cos_pi_div_two]
    · rw [if_neg (by linarith), if_neg (by linarith), cos_zero]; norm_num
    · rw [if_pos h2, cos_pi_div_two]

/-! ### Unit-norm preservation through the embedding and the rotations -/

lemma embedVec_unit (lon lat : ℝ) :
    (embedVec lon lat).1 ^ 2 + (embedVec lon lat).2.1 ^ 2 + (embedVec lon lat).2.2 ^ 2 = 1 := by
  simp only [embedVec]
  linear_combination (cos lat) ^ 2 * sin_sq_add_cos_sq lon + sin_sq_add_cos_sq lat

lemma rotFwd_sumsq (raP decP : ℝ) (v : ℝ × ℝ × ℝ) :
    (rotFwd raP decP v).1 ^ 2 + (rotFwd raP decP v).2.1 ^ 2 + (rotFwd raP decP v).2.2 ^ 2 =
      v.1 ^ 2 + v.2.1 ^ 2 + v.2.2 ^ 2 := by
  obtain ⟨x, y, z⟩ := v
  simp only [rotFwd]
  linear_combination
    ((sin (-1 * raP) * x + cos (-1 * raP) * y) ^ 2 + z ^ 2) * sin_sq_add_cos_sq (decP - π / 2) +
      (x ^ 2 + y ^ 2) * sin_sq_add_cos_sq (-1 * raP)

lemma rotInv_rotFwd (raP decP : ℝ) (v : ℝ × ℝ × ℝ) :
    rotInv raP decP (rotFwd raP decP v) = v := by
  obtain ⟨x, y, z⟩ := v
  have h1 : decP - π / 2 = -(π / 2 - decP) := by ring
  have h2 : -1 * raP = -raP := by ring
  simp only [rotFwd, rotInv, h1, h2, cos_neg, sin_neg, cos_pi_div_two_sub, sin_pi_div_two_sub]
  refine Prod.ext ?_ (Prod.ext ?_ ?_)
  · linear_combination x * sin_sq_add_cos_sq raP +
      (sin raP * (sin raP * x - cos raP * y)) * sin_sq_add_cos_sq decP
  · linear_combination y * sin_sq_add_cos_sq raP +
      (cos raP * (cos raP * y - sin raP * x)) * sin_sq_add_cos_sq decP
  · linear_combination z * sin_sq_add_cos_sq decP

/-! ### Correctness of the (lon, lat) extraction on unit vectors -/

section Extraction

variable {v : ℝ × ℝ × ℝ}

lemma cos_latOf (hu : v.1 ^ 2 + v.2.1 ^ 2 + v.2.2 ^ 2 = 1) (hcc : 0 < ccOf v) :
    cos (latOf v) = ccOf v := by
  have hzz : ccOf v ^ 2 + v.2.2 ^ 2 = 1 := by rw [ccOf_sq]; linarith
  have hne : ccOf v ≠ 0 := ne_of_gt hcc
  have hsq : 1 + (v.2.2 / ccOf v) ^ 2 = (1 / ccOf v) ^ 2 := by
    field_simp
    linarith
  rw [latOf_eq_arctan hcc, cos_arctan, hsq, Real.sqrt_sq (by positivity), one_div_one_div]

lemma sin_latOf (hu : v.1 ^ 2 + v.2.1 ^ 2 + v.2.2 ^ 2 = 1) (hcc : 0 < ccOf v) :
    sin (latOf v) = v.2.2 := by
  have hzz : ccOf v ^ 2 + v.2.2 ^ 2 = 1 := by rw [ccOf_sq]; linarith
  have hne : ccOf v ≠ 0 := ne_of_gt hcc
  have hsq : 1 + (v.2.2 / ccOf v) ^ 2 = (1 / ccOf v) ^ 2 := by
    field_simp
    linarith
  rw [latOf_eq_arctan hcc, sin_arctan, hsq, Real.sqrt_sq (by positivity)]
  field_simp

lemma yTilde_eq (hu : v.1 ^ 2 + v.2.1 ^ 2 + v.2.2 ^ 2 = 1) (hcc : 0 < ccOf v) :
    yTilde v = v.2.1 / ccOf v := by
  rw [yTilde, cos_latOf hu hcc]

lemma abs_yTilde_le (hu : v.1 ^ 2 + v.2.1 ^ 2 + v.2.2 ^ 2 = 1) (hcc : 0 < ccOf v) :
    |yTilde v| ≤ 1 := by
  rw [yTilde_eq hu hcc, abs_div, abs_of_pos hcc, div_le_one hcc]
  have h := ccOf_sq v
  nlinarith [abs_nonneg v.2.1, sq_abs v.2.1, sq_nonneg v.1, ccOf_nonneg v]

lemma raIsNaN_false (hu : v.1 ^ 2 + v.2.1 ^ 2 + v.2.2 ^ 2 = 1) (hcc : 0 < ccOf v) :
    ¬ raIsNaN v := by
  rw [raIsNaN, cos_latOf hu hcc]
  push_neg
  exact ⟨ne_of_gt hcc, abs_yTilde_le hu hcc⟩

lemma cos_raTilde (hu : v.1 ^ 2 + v.2.1 ^ 2 + v.2.2 ^ 2 = 1) (hcc : 0 < ccOf v) :
    cos (raTilde v) = v.2.1 / ccOf v := by
  have h := abs_le.mp (abs_yTilde_le hu hcc)
  rw [raTilde, Real.cos_arccos h.1 h.2, yTilde_eq hu hcc]

lemma sin_raTilde (hu : v.1 ^ 2 + v.2.1 ^ 2 + v.2.2 ^ 2 = 1) (hcc : 0 < ccOf v) :
    sin (raTilde v) = |v.1| / ccOf v := by
  have hne : ccOf v ≠ 0 := ne_of_gt hcc
  have hcs := ccOf_sq v
  have hsq : 1 - yTilde v ^ 2 = (|v.1| / ccOf v) ^ 2 := by
    rw [yTilde_eq hu hcc, div_pow, div_pow, sq_abs]
    field_simp
    linarith
  rw [raTilde, sin_arccos, hsq, Real.sqrt_sq (by positivity)]

lemma flip_iff (hu : v.1 ^ 2 + v.2.1 ^ 2 + v.2.2 ^ 2 = 1) (hcc : 0 < ccOf v) :
    flipCond v ↔ 1e-9 * ccOf v < v.1 := by
  have hy : npSign (yTilde v) = npSign v.2.1 := by
    rw [yTilde, cos_latOf hu hcc, npSign_div_pos _ hcc]
  have hx : |xTilde v| = |v.1| / ccOf v := by
    rw [xTilde, abs_neg, sin_raTilde hu hcc, abs_of_nonneg (by positivity)]
  constructor
  · rintro (⟨h1, h2⟩ | ⟨_, h2⟩)
    · rcases lt_trichotomy v.1 0 with hv | hv | hv
      · exfalso
        apply h2
        have hsin : 0 < |v.1| / ccOf v := div_pos (abs_pos.mpr (ne_of_lt hv)) hcc
        rw [xTilde, sin_raTilde hu hcc, npSign_neg hv, npSign_neg (neg_neg_of_pos hsin)]
      · exfalso
        rw [hx, hv, abs_zero, zero_div] at h1
        norm_num at h1
      · rw [hx, abs_of_pos hv, lt_div_iff₀ hcc] at h1
        linarith
    · exact absurd hy h2
  · intro h
    have hv : 0 < v.1 := lt_trans (by positivity) h
    left
    constructor
    · rw [hx, abs_of_pos hv, lt_div_iff₀ hcc]
      linarith
    · rw [xTilde, sin_raTilde hu hcc, npSign_pos hv,
        npSign_neg (neg_neg_of_pos (by rw [abs_of_pos hv]; positivity))]
      norm_num

lemma embed_lonLat (hu : v.1 ^ 2 + v.2.1 ^ 2 + v.2.2 ^ 2 = 1) (hcc : 0 < ccOf v)
    (hv0 : v.1 ≤ 0 ∨ 1e-9 * ccOf v < v.1) :
    embedVec (lonOf v) (latOf v) = v := by
  have hne : ccOf v ≠ 0 := ne_of_gt hcc
  have hlon : cos (lonOf v) = v.2.1 / ccOf v ∧ sin (lonOf v) = -v.1 / ccOf v := by
    rw [lonOf, if_neg (raIsNaN_false hu hcc)]
    by_cases hf : flipCond v
    · have hv1 : 0 < v.1 := lt_trans (by positivity) ((flip_iff hu hcc).mp hf)
      rw [if_pos hf, Real.cos_two_pi_sub, Real.sin_two_pi_sub,
        cos_raTilde hu hcc, sin_raTilde hu hcc, abs_of_pos hv1]
      exact ⟨rfl, by ring⟩
    · have hv1 : v.1 ≤ 0 := by
        rcases hv0 with h | h
        · exact h
        · exact absurd ((flip_iff hu hcc).mpr h) hf
      rw [if_neg hf, cos_raTilde hu hcc, sin_raTilde hu hcc, abs_of_nonpos hv1]
      exact ⟨rfl, by ring⟩
  refine Prod.ext ?_ (Prod.ext ?_ ?_)
  · show -1 * cos (latOf v) * sin (lonOf v) = v.1
    rw [cos_latOf hu hcc, hlon.2]
    field_simp
  · show cos (latOf v) * cos (lonOf v) = v.2.1
    rw [cos_latOf hu hcc, hlon.1]
    field_simp
  · exact sin_latOf hu hcc

end Extraction

/-! ### Recovery of the angles from their own embedding -/

lemma embedVec_horizontal_sq (ra dec : ℝ) :
    (embedVec ra dec).1 * (embedVec ra dec).1 + (embedVec ra dec).2.1 * (embedVec ra dec).2.1 =
      cos dec ^ 2 := by
  simp only [embedVec]
  linear_combination cos dec ^ 2 * sin_sq_add_cos_sq ra

lemma ccOf_embedVec {ra dec : ℝ} (h2 : -(π / 2) < dec) (h3 : dec < π / 2) :
    ccOf (embedVec ra dec) = cos dec := by
  have hcd : 0 < cos dec := Real.cos_pos_of_mem_Ioo ⟨h2, h3⟩
  rw [ccOf, embedVec_horizontal_sq, Real.sqrt_sq hcd.le]

lemma latOf_embedVec {ra dec : ℝ} (h2 : -(π / 2) < dec) (h3 : dec < π / 2) :
    latOf (embedVec ra dec) = dec := by
  have hcd : 0 < cos dec := Real.cos_pos_of_mem_Ioo ⟨h2, h3⟩
  have hcc : 0 < ccOf (embedVec ra dec) := by rw [ccOf_embedVec h2 h3]; exact hcd
  rw [latOf_eq_arctan hcc, ccOf_embedVec h2 h3]
  show arctan (sin dec / cos dec) = dec
  rw [← Real.tan_eq_sin_div_cos, Real.arctan_tan h2 h3]

lemma lonLat_embed {ra dec : ℝ} (h0 : 0 ≤ ra) (h1 : ra < 2 * π)
    (h2 : -(π / 2) < dec) (h3 : dec < π / 2) (hq : ra ≤ π ∨ sin ra < -1e-9) :
    lonLatFromVec (embedVec ra dec) = (ra, dec) := by
  have hcd : 0 < cos dec := Real.cos_pos_of_mem_Ioo ⟨h2, h3⟩
  have hcc : 0 < ccOf (embedVec ra dec) := by rw [ccOf_embedVec h2 h3]; exact hcd
  have hu := embedVec_unit ra dec
  have hy : yTilde (embedVec ra dec) = cos ra := by
    rw [yTilde, latOf_embedVec h2 h3]
    show cos dec * cos ra / cos dec = cos ra
    field_simp
  have hflip : flipCond (embedVec ra dec) ↔ sin ra < -1e-9 := by
    rw [flip_iff hu hcc, ccOf_embedVec h2 h3]
    show 1e-9 * cos dec < -1 * cos dec * sin ra ↔ sin ra < -1e-9
    constructor
    · intro h
      nlinarith
    · intro h
      nlinarith
  have hra : raTilde (embedVec ra dec) = arccos (cos ra) := by rw [raTilde, hy]
  refine Prod.ext ?_ (latOf_embedVec h2 h3)
  show lonOf (embedVec ra dec) = ra
  rw [lonOf, if_neg (raIsNaN_false hu hcc)]
  rcases hq with hle | hs
  · have hnf : ¬ flipCond (embedVec ra dec) := by
      rw [hflip]
      have := Real.sin_nonneg_of_nonneg_of_le_pi h0 hle
      intro hcon
      norm_num at hcon
      linarith
    rw [if_neg hnf, hra, Real.arccos_cos h0 hle]
  · have hπ : π < ra := by
      by_contra hcon
      push_neg at hcon
      have := Real.sin_nonneg_of_nonneg_of_le_pi h0 hcon
      norm_num at hs
      linarith
    have hacos : arccos (cos ra) = 2 * π - ra := by
      rw [← Real.cos_two_pi_sub ra, Real.arccos_cos (by linarith) (by linarith)]
    rw [if_pos (hflip.mpr hs), hra, hacos]
    ring

lemma ccOf_pos_of_not_pole {v : ℝ × ℝ × ℝ} (hu : v.1 ^ 2 + v.2.1 ^ 2 + v.2.2 ^ 2 = 1)
    (hp : 1e-9 < π / 2 - |latOf v|) : 0 < ccOf v := by
  rcases lt_or_eq_of_le (ccOf_nonneg v) with h | h
  · exact h
  · exfalso
    have h0 : v.1 ^ 2 + v.2.1 ^ 2 = 0 := by
      rw [← ccOf_sq, ← h]
      ring
    have hz : (v.2.2 - 1) * (v.2.2 + 1) = 0 := by nlinarith
    have hlat : latOf v = π / 2 ∨ latOf v = -(π / 2) := by
      rw [latOf, arctan2, if_neg (by rw [← h]; exact lt_irrefl 0),
        if_neg (by rw [← h]; exact lt_irrefl 0)]
      rcases mul_eq_zero.mp hz with h1 | h1
      · left
        rw [if_pos (by nlinarith)]
      · right
        rw [if_neg (by nlinarith), if_pos (by nlinarith)]
    have hpd : 0 < π / 2 := by positivity
    rcases hlat with hl | hl <;> rw [hl] at hp
    · rw [abs_of_pos hpd] at hp
      norm_num at hp
    · rw [abs_neg, abs_of_pos hpd] at hp
      norm_num at hp

/-- C1 (amended).  For a pointing `(raPointing, decPointing)` and
`ra ∈ [0, 2*pi)`, `dec ∈ (-pi/2, pi/2)`, if the forward image is more than
`1e-9` rad away from a native pole, AND the input avoids the two
quadrant-tolerance windows of the code (the rotated x-component is either
nonpositive or exceeds `1e-9 * cos(lat)`, and `ra` is either at most `pi` or
has `sin ra < -1e-9`), then `_raDecFromNativeLonLat` inverts
`_nativeLonLatFromRaDec` exactly (hence to within 1e-9 rad).  The original
claim, quantified over all inputs outside the pole neighbourhood, is refuted
by `C1_counterexample`. -/
theorem C1_round_trip (ra dec raPointing decPointing : ℝ)
    (h0 : 0 ≤ ra) (h1 : ra < 2 * π) (h2 : -(π / 2) < dec) (h3 : dec < π / 2)
    (hpole : 1e-9 < π / 2 - |(_nativeLonLatFromRaDec ra dec raPointing decPointing).2|)
    (hwin : (rotFwd raPointing decPointing (embedVec ra dec)).1 ≤ 0 ∨
      1e-9 * ccOf (rotFwd raPointing decPointing (embedVec ra dec)) <
        (rotFwd raPointing decPointing (embedVec ra dec)).1)
    (hq : ra ≤ π ∨ sin ra < -1e-9) :
    _raDecFromNativeLonLat (_nativeLonLatFromRaDec ra dec raPointing decPointing).1
      (_nativeLonLatFromRaDec ra dec raPointing decPointing).2 raPointing decPointing =
      (ra, dec) := by
  have hu : (rotFwd raPointing decPointing (embedVec ra dec)).1 ^ 2 +
      (rotFwd raPointing decPointing (embedVec ra dec)).2.1 ^ 2 +
      (rotFwd raPointing decPointing (embedVec ra dec)).2.2 ^ 2 = 1 := by
    rw [rotFwd_sumsq]
    exact embedVec_unit ra dec
  have hlat : (_nativeLonLatFromRaDec ra dec raPointing decPointing).2 =
      latOf (rotFwd raPointing decPointing (embedVec ra dec)) := rfl
  rw [hlat] at hpole
  have hcc := ccOf_pos_of_not_pole hu hpole
  have hemb := embed_lonLat hu hcc hwin
  show lonLatFromVec (rotInv raPointing decPointing
    (embedVec (lonOf (rotFwd raPointing decPointing (embedVec ra dec)))
      (latOf (rotFwd raPointing decPointing (embedVec ra dec))))) = (ra, dec)
  rw [hemb, rotInv_rotFwd]
  exact lonLat_embed h0 h1 h2 h3 hq

/-! ### Concrete evaluations of the extraction -/

lemma arctan2_zero_one : arctan2 0 1 = 0 := by
  rw [arctan2, if_pos one_pos]
  norm_num [Real.arctan_zero]

lemma ccOf_eval (a b : ℝ) (h : a * a + b * b = 1) : ccOf (a, b, (0 : ℝ)) = 1 := by
  show Real.sqrt (a * a + b * b) = 1
  rw [h, Real.sqrt_one]

lemma latOf_eval (a b : ℝ) (h : a * a + b * b = 1) : latOf (a, b, (0 : ℝ)) = 0 := by
  show arctan2 0 (ccOf (a, b, (0 : ℝ))) = 0
  rw [ccOf_eval a b h, arctan2_zero_one]

lemma yTilde_eval (a b : ℝ) (h : a * a + b * b = 1) : yTilde (a, b, (0 : ℝ)) = b := by
  show b / cos (latOf (a, b, (0 : ℝ))) = b
  rw [latOf_eval a b h, Real.cos_zero, div_one]

lemma lonLatFromVec_small (a t : ℝ) (h0 : 0 < t) (h1 : t < 1e-9)
    (hsq : a * a + cos t * cos t = 1) :
    lonLatFromVec (a, cos t, (0 : ℝ)) = (t, 0) := by
  have hπ : (1e-9 : ℝ) < π := by
    have := Real.pi_gt_three
    norm_num
    linarith
  have htπ : t ≤ π := by linarith
  have hy := yTilde_eval a (cos t) hsq
  have hra : raTilde (a, cos t, (0 : ℝ)) = t := by
    rw [raTilde, hy, Real.arccos_cos h0.le htπ]
  have hsint : 0 ≤ sin t := Real.sin_nonneg_of_nonneg_of_le_pi h0.le htπ
  have hnan : ¬ raIsNaN (a, cos t, (0 : ℝ)) := by
    rw [raIsNaN, latOf_eval a (cos t) hsq, Real.cos_zero, hy]
    push_neg
    exact ⟨one_ne_zero, Real.abs_cos_le_one t⟩
  have hflip : ¬ flipCond (a, cos t, (0 : ℝ)) := by
    rw [flipCond, xTilde, hra, hy]
    rintro (⟨habs, -⟩ | ⟨-, hne⟩)
    · rw [abs_neg, abs_of_nonneg hsint] at habs
      have := Real.sin_le h0.le
      linarith
    · exact hne rfl
  refine Prod.ext ?_ (latOf_eval a (cos t) hsq)
  show lonOf (a, cos t, (0 : ℝ)) = t
  rw [lonOf, if_neg hnan, if_neg hflip, hra]

lemma lonLat_negX : lonLatFromVec (-1, 0, (0 : ℝ)) = (π / 2, 0) := by
  have h : (-1 : ℝ) * (-1) + 0 * 0 = 1 := by norm_num
  have hy := yTilde_eval (-1) 0 h
  have hra : raTilde (-1, 0, (0 : ℝ)) = π / 2 := by
    rw [raTilde, hy, Real.arccos_zero]
  have hnan : ¬ raIsNaN (-1, 0, (0 : ℝ)) := by
    rw [raIsNaN, latOf_eval (-1) 0 h, Real.cos_zero, hy]
    push_neg
    refine ⟨one_ne_zero, ?_⟩
    norm_num
  have hflip : ¬ flipCond (-1, 0, (0 : ℝ)) := by
    rw [flipCond, xTilde, hra, hy, Real.sin_pi_div_two]
    rintro (⟨-, hne⟩ | ⟨habs, -⟩)
    · exact hne rfl
    · norm_num at habs
  refine Prod.ext ?_ (latOf_eval (-1) 0 h)
  show lonOf (-1, 0, (0 : ℝ)) = π / 2
  rw [lonOf, if_neg hnan, if_neg hflip, hra]

lemma lonLat_posX : lonLatFromVec (1, 0, (0 : ℝ)) = (3 * π / 2, 0) := by
  have h : (1 : ℝ) * 1 + 0 * 0 = 1 := by norm_num
  have hy := yTilde_eval 1 0 h
  have hra : raTilde (1, 0, (0 : ℝ)) = π / 2 := by
    rw [raTilde, hy, Real.arccos_zero]
  have hnan : ¬ raIsNaN (1, 0, (0 : ℝ)) := by
    rw [raIsNaN, latOf_eval 1 0 h, Real.cos_zero, hy]
    push_neg
    refine ⟨one_ne_zero, ?_⟩
    norm_num
  have hflip : flipCond (1, 0, (0 : ℝ)) := by
    rw [flipCond, xTilde, hra, hy, Real.sin_pi_div_two]
    left
    constructor
    · norm_num
    · rw [npSign_neg (by norm_num), show ((1 : ℝ), (0 : ℝ), (0 : ℝ)).1 = 1 from rfl,
        npSign_pos one_pos]
      norm_num
  refine Prod.ext ?_ (latOf_eval 1 0 h)
  show lonOf (1, 0, (0 : ℝ)) = 3 * π / 2
  rw [lonOf, if_neg hnan, if_pos hflip, hra]
  ring

lemma lonLat_negY : lonLatFromVec (0, -1, (0 : ℝ)) = (π, 0) := by
  have h : (0 : ℝ) * 0 + (-1) * (-1) = 1 := by norm_num
  have hy := yTilde_eval 0 (-1) h
  have hra : raTilde (0, -1, (0 : ℝ)) = π := by
    rw [raTilde, hy, Real.arccos_neg_one]
  have hnan : ¬ raIsNaN (0, -1, (0 : ℝ)) := by
    rw [raIsNaN, latOf_eval 0 (-1) h, Real.cos_zero, hy]
    push_neg
    refine ⟨one_ne_zero, ?_⟩
    norm_num
  have hflip : ¬ flipCond (0, -1, (0 : ℝ)) := by
    rw [flipCond, xTilde, hra, hy, Real.sin_pi]
    rintro (⟨habs, -⟩ | ⟨-, hne⟩)
    · norm_num at habs
    · exact hne rfl
  refine Prod.ext ?_ (latOf_eval 0 (-1) h)
  show lonOf (0, -1, (0 : ℝ)) = π
  rw [lonOf, if_neg hnan, if_neg hflip, hra]

lemma lonLat_polar : lonLatFromVec (0, 0, (1 : ℝ)) = (0, π / 2) := by
  have hcc : ccOf (0, 0, (1 : ℝ)) = 0 := by
    show Real.sqrt ((0 : ℝ) * 0 + 0 * 0) = 0
    norm_num
  have hlat : latOf (0, 0, (1 : ℝ)) = π / 2 := by
    show arctan2 1 (ccOf (0, 0, (1 : ℝ))) = π / 2
    rw [hcc, arctan2, if_neg (lt_irrefl 0), if_neg (lt_irrefl 0), if_pos one_pos]
  have hnan : raIsNaN (0, 0, (1 : ℝ)) :=
    Or.inl (by rw [hlat, Real.cos_pi_div_two])
  refine Prod.ext ?_ hlat
  show lonOf (0, 0, (1 : ℝ)) = 0
  rw [lonOf, if_pos hnan]

lemma rotFwd_id (v : ℝ × ℝ × ℝ) : rotFwd 0 (π / 2) v = v := by
  obtain ⟨x, y, z⟩ := v
  simp [rotFwd]

lemma rotInv_id (v : ℝ × ℝ × ℝ) : rotInv 0 (π / 2) v = v := by
  obtain ⟨x, y, z⟩ := v
  simp [rotInv]

lemma embedVec_two_pi_sub (t : ℝ) : embedVec (2 * π - t) 0 = (sin t, cos t, 0) := by
  simp [embedVec, Real.sin_two_pi_sub, Real.cos_two_pi_sub]

/-- C1 counterexample: at `ra = 2*pi - 9e-10`, `dec = 0` (with the pointing
`(0, pi/2)`, for which the rotation is the identity) the forward image has
latitude 0, far from a native pole, yet the round trip returns
`ra = 9e-10` instead of `2*pi - 9e-10`: the quadrant flip is suppressed by
the `1e-9` tolerance.  The error exceeds `1e-9` rad, refuting the claim as
stated. -/
theorem C1_counterexample :
    1e-9 < π / 2 - |(_nativeLonLatFromRaDec (2 * π - 9e-10) 0 0 (π / 2)).2| ∧
    1e-9 < |(_raDecFromNativeLonLat (_nativeLonLatFromRaDec (2 * π - 9e-10) 0 0 (π / 2)).1
      (_nativeLonLatFromRaDec (2 * π - 9e-10) 0 0 (π / 2)).2 0 (π / 2)).1 -
      (2 * π - 9e-10)| := by
  have hε0 : (0 : ℝ) < 9e-10 := by norm_num
  have hε1 : (9e-10 : ℝ) < 1e-9 := by norm_num
  have hpyth := sin_sq_add_cos_sq (9e-10 : ℝ)
  have hfwd : _nativeLonLatFromRaDec (2 * π - 9e-10) 0 0 (π / 2) = (9e-10, 0) := by
    rw [_nativeLonLatFromRaDec, embedVec_two_pi_sub, rotFwd_id]
    exact lonLatFromVec_small _ _ hε0 hε1 (by nlinarith)
  have hinv : _raDecFromNativeLonLat 9e-10 0 0 (π / 2) = (9e-10, 0) := by
    have he : embedVec 9e-10 0 = (-sin 9e-10, cos 9e-10, 0) := by
      simp [embedVec]
    rw [_raDecFromNativeLonLat, he, rotInv_id]
    exact lonLatFromVec_small _ _ hε0 hε1 (by nlinarith)
  have h1 : (_nativeLonLatFromRaDec (2 * π - 9e-10) 0 0 (π / 2)).1 = 9e-10 := by rw [hfwd]
  have h2 : (_nativeLonLatFromRaDec (2 * π - 9e-10) 0 0 (π / 2)).2 = 0 := by rw [hfwd]
  have hπ := Real.pi_gt_three
  constructor
  · rw [h2, abs_zero, sub_zero]
    norm_num
    linarith
  · rw [h1, h2, hinv]
    have hneg : (((9e-10 : ℝ), (0 : ℝ)).1 : ℝ) - (2 * π - 9e-10) < 0 := by
      show (9e-10 : ℝ) - (2 * π - 9e-10) < 0
      norm_num
      linarith
    rw [abs_of_neg hneg]
    show (1e-9 : ℝ) < -((9e-10 : ℝ) - (2 * π - 9e-10))
    norm_num
    linarith

/-- C1 witness: the amended round-trip theorem applied at
`ra = pi/2, dec = 0` with pointing `(0, pi/2)`. -/
theorem C1_round_trip_witness :
    (1e-9 < π / 2 - |(_nativeLonLatFromRaDec (π / 2) 0 0 (π / 2)).2|) ∧
    ((rotFwd 0 (π / 2) (embedVec (π / 2) 0)).1 ≤ 0) ∧
    _raDecFromNativeLonLat (_nativeLonLatFromRaDec (π / 2) 0 0 (π / 2)).1
      (_nativeLonLatFromRaDec (π / 2) 0 0 (π / 2)).2 0 (π / 2) = (π / 2, 0) := by
  have hπ := Real.pi_gt_three
  have hπ0 := Real.pi_pos
  have he : embedVec (π / 2) 0 = (-1, 0, 0) := by
    simp [embedVec]
  have hfwd : _nativeLonLatFromRaDec (π / 2) 0 0 (π / 2) = (π / 2, 0) := by
    rw [_nativeLonLatFromRaDec, he, rotFwd_id]
    exact lonLat_negX
  have h2 : (_nativeLonLatFromRaDec (π / 2) 0 0 (π / 2)).2 = 0 := by rw [hfwd]
  have hpole : 1e-9 < π / 2 - |(_nativeLonLatFromRaDec (π / 2) 0 0 (π / 2)).2| := by
    rw [h2, abs_zero, sub_zero]
    norm_num
    linarith
  have hwin : (rotFwd 0 (π / 2) (embedVec (π / 2) 0)).1 ≤ 0 := by
    rw [he, rotFwd_id]
    norm_num
  exact ⟨hpole, hwin,
    C1_round_trip (π / 2) 0 0 (π / 2) (by positivity) (by linarith) (by linarith)
      (by linarith) hpole (Or.inl hwin) (Or.inl (by linarith))⟩

/-! ### Claim C2: the quadrant-flip rule -/

lemma embedVec_3pi2 : embedVec (3 * π / 2) 0 = (1, 0, 0) := by
  have h32 : 3 * π / 2 = π + π / 2 := by ring
  simp [embedVec, h32, Real.sin_add, Real.cos_add]

lemma fwd_3pi2 : rotFwd 0 0 (embedVec (3 * π / 2) 0) = (1, 0, 0) := by
  rw [embedVec_3pi2]
  simp [rotFwd]

/-- C2 counterexample: at `ra = 3*pi/2, dec = 0`, pointing `(0, 0)`, the
rotated vector is `(1, 0, 0)` and the candidate is `pi/2`.  The code flips
(the computed longitude is `3*pi/2`), but the rule as the claim words it
(comparing `sin(candidate) = 1` with `x' = 1`) would not flip and would
return `pi/2`. -/
theorem C2_counterexample :
    (_nativeLonLatFromRaDec (3 * π / 2) 0 0 0).1 ≠
      (if specFlipC2 (rotFwd 0 0 (embedVec (3 * π / 2) 0))
       then 2 * π - raTilde (rotFwd 0 0 (embedVec (3 * π / 2) 0))
       else raTilde (rotFwd 0 0 (embedVec (3 * π / 2) 0))) := by
  have h : (1 : ℝ) * 1 + 0 * 0 = 1 := by norm_num
  have hy := yTilde_eval 1 0 h
  have hra : raTilde (1, 0, (0 : ℝ)) = π / 2 := by
    rw [raTilde, hy, Real.arccos_zero]
  have hlhs : (_nativeLonLatFromRaDec (3 * π / 2) 0 0 0).1 = 3 * π / 2 := by
    rw [_nativeLonLatFromRaDec, fwd_3pi2, lonLat_posX]
  have hspec : ¬ specFlipC2 (1, 0, (0 : ℝ)) := by
    rw [specFlipC2, hra, hy, Real.sin_pi_div_two]
    rintro (⟨-, hne⟩ | ⟨habs, -⟩)
    · exact hne rfl
    · norm_num at habs
  rw [hlhs, fwd_3pi2, if_neg hspec, hra]
  have := Real.pi_pos
  intro hcon
  linarith

/-- C2 (amended): inside the non-NaN branch the longitude is the arccos
candidate, flipped to `2*pi - candidate` exactly when `-sin(candidate)` (the
code's `_x`) disagrees in sign with the rotated x-component (with
`|sin(candidate)|` exceeding `1e-9`), or `y'/cos(lat)` disagrees in sign with
the rotated y-component (same tolerance).  This is the claim with
`sin(candidate)` corrected to `-sin(candidate)` in the first comparison. -/
theorem C2_flip_rule (ra dec raPointing decPointing : ℝ)
    (h : ¬ raIsNaN (rotFwd raPointing decPointing (embedVec ra dec))) :
    (_nativeLonLatFromRaDec ra dec raPointing decPointing).1 =
      if (1e-9 < |sin (raTilde (rotFwd raPointing decPointing (embedVec ra dec)))| ∧
            npSign (-sin (raTilde (rotFwd raPointing decPointing (embedVec ra dec)))) ≠
              npSign (rotFwd raPointing decPointing (embedVec ra dec)).1) ∨
         (1e-9 < |yTilde (rotFwd raPointing decPointing (embedVec ra dec))| ∧
            npSign (yTilde (rotFwd raPointing decPointing (embedVec ra dec))) ≠
              npSign (rotFwd raPointing decPointing (embedVec ra dec)).2.1)
      then 2 * π - raTilde (rotFwd raPointing decPointing (embedVec ra dec))
      else raTilde (rotFwd raPointing decPointing (embedVec ra dec)) := by
  show lonOf _ = _
  simp only [lonOf, if_neg h, flipCond, xTilde, abs_neg]

/-- C2 witness: the amended flip rule instantiated at
`ra = 3*pi/2, dec = 0`, pointing `(0, 0)`. -/
theorem C2_flip_rule_witness :
    ¬ raIsNaN (rotFwd 0 0 (embedVec (3 * π / 2) 0)) ∧
    (_nativeLonLatFromRaDec (3 * π / 2) 0 0 0).1 =
      (if (1e-9 < |sin (raTilde (rotFwd 0 0 (embedVec (3 * π / 2) 0)))| ∧
            npSign (-sin (raTilde (rotFwd 0 0 (embedVec (3 * π / 2) 0)))) ≠
              npSign (rotFwd 0 0 (embedVec (3 * π / 2) 0)).1) ∨
         (1e-9 < |yTilde (rotFwd 0 0 (embedVec (3 * π / 2) 0))| ∧
            npSign (yTilde (rotFwd 0 0 (embedVec (3 * π / 2) 0))) ≠
              npSign (rotFwd 0 0 (embedVec (3 * π / 2) 0)).2.1)
       then 2 * π - raTilde (rotFwd 0 0 (embedVec (3 * π / 2) 0))
       else raTilde (rotFwd 0 0 (embedVec (3 * π / 2) 0))) := by
  have h1 : (1 : ℝ) * 1 + 0 * 0 = 1 := by norm_num
  have hnan : ¬ raIsNaN (1, 0, (0 : ℝ)) := by
    rw [raIsNaN, latOf_eval 1 0 h1, Real.cos_zero, yTilde_eval 1 0 h1]
    push_neg
    refine ⟨one_ne_zero, ?_⟩
    norm_num
  have h : ¬ raIsNaN (rotFwd 0 0 (embedVec (3 * π / 2) 0)) := by
    rw [fwd_3pi2]
    exact hnan
  exact ⟨h, C2_flip_rule (3 * π / 2) 0 0 0 h⟩

/-! ### Claim C7: behaviour at a native pole -/

lemma lonOf_pole {v : ℝ × ℝ × ℝ} (h : |latOf v| = π / 2) : lonOf v = 0 := by
  have hc : cos (latOf v) = 0 := by
    rw [← Real.cos_abs, h, Real.cos_pi_div_two]
  have hnan : raIsNaN v := Or.inl hc
  rw [lonOf, if_pos hnan]

/-- C7: whenever the computed latitude (resp. declination) lies at a native
pole — the situation in which the float longitude candidate is `NaN` because
`cos(lat) = 0` — both `_nativeLonLatFromRaDec` and `_raDecFromNativeLonLat`
return 0 for the longitude (resp. RA) component.  The embedding is a total
function, so no exception is raised on degenerate input. -/
theorem C7_pole_lon_zero (ra dec lon lat raPointing decPointing : ℝ) :
    (|(_nativeLonLatFromRaDec ra dec raPointing decPointing).2| = π / 2 →
      (_nativeLonLatFromRaDec ra dec raPointing decPointing).1 = 0) ∧
    (|(_raDecFromNativeLonLat lon lat raPointing decPointing).2| = π / 2 →
      (_raDecFromNativeLonLat lon lat raPointing decPointing).1 = 0) :=
  ⟨fun h => lonOf_pole h, fun h => lonOf_pole h⟩

/-- C7 witness: the pole behaviour at `ra = 0, dec = pi/2` (forward) and
`lon = 0, lat = pi/2` (inverse), pointing `(0, pi/2)`. -/
theorem C7_pole_lon_zero_witness :
    (|(_nativeLonLatFromRaDec 0 (π / 2) 0 (π / 2)).2| = π / 2 ∧
      (_nativeLonLatFromRaDec 0 (π / 2) 0 (π / 2)).1 = 0) ∧
    (|(_raDecFromNativeLonLat 0 (π / 2) 0 (π / 2)).2| = π / 2 ∧
      (_raDecFromNativeLonLat 0 (π / 2) 0 (π / 2)).1 = 0) := by
  have he : embedVec 0 (π / 2) = (0, 0, 1) := by
    simp [embedVec]
  have hfwd : _nativeLonLatFromRaDec 0 (π / 2) 0 (π / 2) = (0, π / 2) := by
    rw [_nativeLonLatFromRaDec, he, rotFwd_id]
    exact lonLat_polar
  have hinv : _raDecFromNativeLonLat 0 (π / 2) 0 (π / 2) = (0, π / 2) := by
    rw [_raDecFromNativeLonLat, he, rotInv_id]
    exact lonLat_polar
  have habs : |(π / 2 : ℝ)| = π / 2 := abs_of_pos (by positivity)
  have hf : |(_nativeLonLatFromRaDec 0 (π / 2) 0 (π / 2)).2| = π / 2 := by
    rw [hfwd]
    exact habs
  have hi : |(_raDecFromNativeLonLat 0 (π / 2) 0 (π / 2)).2| = π / 2 := by
    rw [hinv]
    exact habs
  exact ⟨⟨hf, (C7_pole_lon_zero 0 (π / 2) 0 (π / 2) 0 (π / 2)).1 hf⟩,
    ⟨hi, (C7_pole_lon_zero 0 (π / 2) 0 (π / 2) 0 (π / 2)).2 hi⟩⟩

/-! ### Claim C9: known-value scenarios of the degree-level wrapper -/

lemma embedVec_zero_pole : embedVec 0 (π / 2) = (0, 0, 1) := by
  simp [embedVec]

lemma embedVec_zero_zero : embedVec 0 0 = (0, 1, 0) := by
  simp [embedVec]

lemma rotFwd00_z : rotFwd 0 0 (0, 0, (1 : ℝ)) = (0, -1, 0) := by
  simp [rotFwd]

lemma sin_3pi2 : sin (3 * π / 2) = -1 := by
  have h32 : 3 * π / 2 = π + π / 2 := by ring
  rw [h32, Real.sin_add]
  simp

lemma cos_3pi2 : cos (3 * π / 2) = 0 := by
  have h32 : 3 * π / 2 = π + π / 2 := by ring
  rw [h32, Real.cos_add]
  simp

lemma rotFwd_3pi2_y : rotFwd (3 * π / 2) 0 (0, 1, (0 : ℝ)) = (-1, 0, 0) := by
  simp [rotFwd, cos_3pi2, sin_3pi2]

/-- C9: the three known-value scenarios of the degrees-level forward
transform: `(0°, 90°)` seen from pointing `(0°, 0°)` is at native
`(180°, 0°)`; `(0°, 0°)` seen from `(270°, 0°)` is at `(90°, 0°)`; and
`(270°, 0°)` seen from `(0°, 0°)` is at `(270°, 0°)`. -/
theorem C9_known_values :
    nativeLonLatFromRaDec 0 90 0 0 = (180, 0) ∧
    nativeLonLatFromRaDec 0 0 270 0 = (90, 0) ∧
    nativeLonLatFromRaDec 270 0 0 0 = (270, 0) := by
  have hπ := Real.pi_ne_zero
  have hr0 : radiansOf 0 = 0 := by rw [radiansOf]; ring
  have hr90 : radiansOf 90 = π / 2 := by rw [radiansOf]; ring
  have hr270 : radiansOf 270 = 3 * π / 2 := by rw [radiansOf]; ring
  have hd0 : degreesOf 0 = 0 := by rw [degreesOf]; ring
  have hdpi : degreesOf π = 180 := by rw [degreesOf]; field_simp
  have hd90 : degreesOf (π / 2) = 90 := by rw [degreesOf]; field_simp; ring
  have hd270 : degreesOf (3 * π / 2) = 270 := by rw [degreesOf]; field_simp; ring
  have hS1 : _nativeLonLatFromRaDec 0 (π / 2) 0 0 = (π, 0) := by
    rw [_nativeLonLatFromRaDec, embedVec_zero_pole, rotFwd00_z]
    exact lonLat_negY
  have hS2 : _nativeLonLatFromRaDec 0 0 (3 * π / 2) 0 = (π / 2, 0) := by
    rw [_nativeLonLatFromRaDec, embedVec_zero_zero, rotFwd_3pi2_y]
    exact lonLat_negX
  have hS3 : _nativeLonLatFromRaDec (3 * π / 2) 0 0 0 = (3 * π / 2, 0) := by
    rw [_nativeLonLatFromRaDec, fwd_3pi2]
    exact lonLat_posX
  refine ⟨?_, ?_, ?_⟩
  · simp only [nativeLonLatFromRaDec]
    rw [hr0, hr90, hS1]
    show (degreesOf π, degreesOf 0) = ((180 : ℝ), (0 : ℝ))
    rw [hdpi, hd0]
  · simp only [nativeLonLatFromRaDec]
    rw [hr0, hr270, hS2]
    show (degreesOf (π / 2), degreesOf 0) = ((90 : ℝ), (0 : ℝ))
    rw [hd90, hd0]
  · simp only [nativeLonLatFromRaDec]
    rw [hr0, hr270, hS3]
    show (degreesOf (3 * π / 2), degreesOf 0) = ((270 : ℝ), (0 : ℝ))
    rw [hd270, hd0]

/-! ### Claim C10: redundancy of the y-clause of the flip condition -/

lemma lonOfNoY_eq (v : ℝ × ℝ × ℝ) : lonOfNoY v = lonOf v := by
  by_cases h : raIsNaN v
  · rw [lonOfNoY, lonOf, if_pos h, if_pos h]
  · rw [lonOfNoY, lonOf, if_neg h, if_neg h]
    have hcpos : 0 < cos (latOf v) := by
      rcases lt_or_eq_of_le (cos_latOf_nonneg v) with hlt | heq
      · exact hlt
      · exact absurd (Or.inl heq.symm) h
    have hy : npSign (yTilde v) = npSign v.2.1 := by
      rw [yTilde, npSign_div_pos _ hcpos]
    have hiff : flipCond v ↔ (1e-9 < |xTilde v| ∧ npSign (xTilde v) ≠ npSign v.1) := by
      rw [flipCond]
      constructor
      · rintro (hc | ⟨-, hne⟩)
        · exact hc
        · exact absurd hy hne
      · exact Or.inl
    exact (if_congr hiff rfl rfl).symm

/-- C10: the latitude returned by `arctan2(z, sqrt(x'^2+y'^2))` always has
nonnegative cosine, so the sign of `y'/cos(lat)` always agrees with the sign
of `y'` whenever the division is defined; consequently deleting the y-clause
of the quadrant-flip condition leaves both `_nativeLonLatFromRaDec` and
`_raDecFromNativeLonLat` unchanged on every input. -/
theorem C10_y_clause_redundant :
    (∀ v : ℝ × ℝ × ℝ, 0 ≤ cos (latOf v)) ∧
    (∀ ra dec raPointing decPointing : ℝ,
      _nativeLonLatFromRaDecNoY ra dec raPointing decPointing =
        _nativeLonLatFromRaDec ra dec raPointing decPointing) ∧
    (∀ lon lat raPointing decPointing : ℝ,
      _raDecFromNativeLonLatNoY lon lat raPointing decPointing =
        _raDecFromNativeLonLat lon lat raPointing decPointing) :=
  ⟨cos_latOf_nonneg,
   fun _ _ _ _ => Prod.ext (lonOfNoY_eq _) rfl,
   fun _ _ _ _ => Prod.ext (lonOfNoY_eq _) rfl⟩

lemma lon_head (v : ℝ × ℝ × ℝ) :
    (if raIsNaN v then (0 : ℝ) else
      if (1e-9 < |xTilde v| ∧ npSign (xTilde v) ≠ npSign v.1) ∨
         (1e-9 < |yTilde v| ∧ npSign (yTilde v) ≠ npSign v.2.1)
      then 2 * π - raTilde v else raTilde v) = lonOf v := by
  rw [lonOf]
  exact if_congr Iff.rfl rfl (if_congr (by rw [flipCond]) rfl rfl)

lemma lonList_eq (v2s : List (ℝ × ℝ × ℝ)) :
    List.zipWith (fun ll v => if raIsNaN v then (0 : ℝ) else ll)
      ((((((v2s.map raTilde).zip (v2s.map xTilde)).zip (v2s.map yTilde)).zip
          (v2s.map fun v => v.1)).zip (v2s.map fun v => v.2.1)).map fun q =>
        if (1e-9 < |q.1.1.1.2| ∧ npSign q.1.1.1.2 ≠ npSign q.1.2) ∨
           (1e-9 < |q.1.1.2| ∧ npSign q.1.1.2 ≠ npSign q.2)
        then 2 * π - q.1.1.1.1 else q.1.1.1.1) v2s = v2s.map lonOf := by
  induction v2s with
  | nil => simp
  | cons v vs ih => simp [ih, lon_head]

lemma zipWith_eq_map_zip {α β γ : Type*} (f : α → β → γ) (l₁ : List α) (l₂ : List β) :
    List.zipWith f l₁ l₂ = (l₁.zip l₂).map fun p => f p.1 p.2 := by
  induction l₁ generalizing l₂ with
  | nil => simp
  | cons a l ih => cases l₂ <;> simp [ih]

/-- C8: on equal-length batches, the array code path of
`_nativeLonLatFromRaDec` computes, element by element, exactly the scalar
code path applied to each `(ra, dec)` pair in turn (so in particular the two
agree to within 1e-10 rad). -/
theorem C8_vectorised (ras decs : List ℝ) (raPointing decPointing : ℝ)
    (_h : ras.length = decs.length) :
    _nativeLonLatFromRaDecVec ras decs raPointing decPointing =
      ((ras.zip decs).map fun p => (_nativeLonLatFromRaDec p.1 p.2 raPointing decPointing).1,
       (ras.zip decs).map fun p => (_nativeLonLatFromRaDec p.1 p.2 raPointing decPointing).2) := by
  simp only [_nativeLonLatFromRaDecVec]
  rw [lonList_eq, zipWith_eq_map_zip, List.map_map, List.map_map]
  rfl

/-- C8 witness: the batch equivalence applied to the concrete equal-length
batch `ras = [0, pi], decs = [0, pi/4]` with pointing `(1, 1)`. -/
theorem C8_vectorised_witness :
    ([(0 : ℝ), π].length = [(0 : ℝ), π / 4].length) ∧
    _nativeLonLatFromRaDecVec [(0 : ℝ), π] [(0 : ℝ), π / 4] 1 1 =
      (([(0 : ℝ), π].zip [(0 : ℝ), π / 4]).map fun p =>
        (_nativeLonLatFromRaDec p.1 p.2 1 1).1,
       ([(0 : ℝ), π].zip [(0 : ℝ), π / 4]).map fun p =>
        (_nativeLonLatFromRaDec p.1 p.2 1 1).2) :=
  ⟨rfl, C8_vectorised [(0 : ℝ), π] [(0 : ℝ), π / 4] 1 1 rfl⟩

/-! ### Lemmas for the linear solve -/

lemma linSolve_mulVec {n : ℕ} {A : Matrix (Fin n) (Fin n) ℝ} {b : Fin n → ℝ}
    (h : A.det ≠ 0) :
    A.mulVec ((A.det)⁻¹ • A.adjugate.mulVec b) = b := by
  rw [Matrix.mulVec_smul, Matrix.mulVec_mulVec, Matrix.mul_adjugate,
    Matrix.smul_mulVec_assoc, Matrix.one_mulVec, smul_smul,
    inv_mul_cancel₀ h, one_smul]

lemma detA (s : List FitSample) :
    (aMatrix s).det = (xsq s * ysq s - offDiag s ^ 2) ^ 2 := by
  rw [aMatrix]
  simp [Matrix.det_succ_row_zero, Fin.sum_univ_succ, Fin.succAbove, Fin.lt_def]
  ring

lemma sum_resid_dx (s : List FitSample) (f : FitSample → ℝ) (c0 c1 : ℝ) :
    (s.map fun p => (f p - (c0 * p.dx + c1 * p.dy)) * p.dx).sum =
      (s.map fun p => p.dx * f p).sum - c0 * xsq s - c1 * offDiag s := by
  induction s with
  | nil => simp [xsq, offDiag]
  | cons p l ih =>
    simp only [xsq, offDiag, List.map_cons, List.sum_cons] at ih ⊢
    linear_combination ih

lemma sum_resid_dy (s : List FitSample) (f : FitSample → ℝ) (c0 c1 : ℝ) :
    (s.map fun p => (f p - (c0 * p.dx + c1 * p.dy)) * p.dy).sum =
      (s.map fun p => p.dy * f p).sum - c0 * offDiag s - c1 * ysq s := by
  induction s with
  | nil => simp [ysq, offDiag]
  | cons p l ih =>
    simp only [ysq, offDiag, List.map_cons, List.sum_cons] at ih ⊢
    linear_combination ih

lemma ssr_decomp (f : FitSample → ℝ) (s : List FitSample) (c0 c1 a b : ℝ) :
    ssr f s a b = ssr f s c0 c1
      + 2 * (c0 - a) * (s.map fun p => (f p - (c0 * p.dx + c1 * p.dy)) * p.dx).sum
      + 2 * (c1 - b) * (s.map fun p => (f p - (c0 * p.dx + c1 * p.dy)) * p.dy).sum
      + (s.map fun p => ((c0 - a) * p.dx + (c1 - b) * p.dy) ^ 2).sum := by
  induction s with
  | nil => simp [ssr]
  | cons p l ih =>
    simp only [ssr, List.map_cons, List.sum_cons] at ih ⊢
    linear_combination ih

lemma ssr_min (f : FitSample → ℝ) (s : List FitSample) (c0 c1 : ℝ)
    (h0 : (s.map fun p => p.dx * f p).sum = c0 * xsq s + c1 * offDiag s)
    (h1 : (s.map fun p => p.dy * f p).sum = c0 * offDiag s + c1 * ysq s)
    (a b : ℝ) : ssr f s c0 c1 ≤ ssr f s a b := by
  have hd := ssr_decomp f s c0 c1 a b
  have hr0 : (s.map fun p => (f p - (c0 * p.dx + c1 * p.dy)) * p.dx).sum = 0 := by
    rw [sum_resid_dx]
    linarith
  have hr1 : (s.map fun p => (f p - (c0 * p.dx + c1 * p.dy)) * p.dy).sum = 0 := by
    rw [sum_resid_dy]
    linarith
  have hnn : 0 ≤ (s.map fun p => ((c0 - a) * p.dx + (c1 - b) * p.dy) ^ 2).sum := by
    apply List.sum_nonneg
    intro x hx
    obtain ⟨p, -, rfl⟩ := List.mem_map.mp hx
    positivity
  rw [hd, hr0, hr1]
  linarith

/-- C3: for a sample set whose normal-equations matrix is non-singular, the
linear solve of lines 340-358 succeeds, the 4x4 system is block-diagonal
with two copies of the 2x2 normal matrix built from the sums of squares and
cross products, the two halves of the solution solve (uniquely) the two 2x2
normal-equation systems, and the four coefficients are exact least-squares
minimisers of `u ≈ cd11*dx + cd12*dy` and `v ≈ cd21*dx + cd22*dy`. -/
theorem C3_least_squares (s : List FitSample)
    (hdet : xsq s * ysq s - offDiag s ^ 2 ≠ 0) :
    ∃ c : Fin 4 → ℝ, coeffsFit s = some c ∧
      ((aMatrix s).submatrix ![(0 : Fin 4), 1] ![(0 : Fin 4), 1] = normalMat s ∧
       (aMatrix s).submatrix ![(2 : Fin 4), 3] ![(2 : Fin 4), 3] = normalMat s ∧
       (aMatrix s).submatrix ![(0 : Fin 4), 1] ![(2 : Fin 4), 3] = 0 ∧
       (aMatrix s).submatrix ![(2 : Fin 4), 3] ![(0 : Fin 4), 1] = 0) ∧
      (normalMat s).mulVec ![c 0, c 1] =
        ![(s.map fun p => p.dx * p.u).sum, (s.map fun p => p.dy * p.u).sum] ∧
      (normalMat s).mulVec ![c 2, c 3] =
        ![(s.map fun p => p.dx * p.v).sum, (s.map fun p => p.dy * p.v).sum] ∧
      (∀ a b : ℝ, (normalMat s).mulVec ![a, b] =
          ![(s.map fun p => p.dx * p.u).sum, (s.map fun p => p.dy * p.u).sum] →
          a = c 0 ∧ b = c 1) ∧
      (∀ a b : ℝ, (normalMat s).mulVec ![a, b] =
          ![(s.map fun p => p.dx * p.v).sum, (s.map fun p => p.dy * p.v).sum] →
          a = c 2 ∧ b = c 3) ∧
      (∀ a b : ℝ, ssr (fun p => p.u) s (c 0) (c 1) ≤ ssr (fun p => p.u) s a b) ∧
      (∀ a b : ℝ, ssr (fun p => p.v) s (c 2) (c 3) ≤ ssr (fun p => p.v) s a b) := by
  have hdet4 : (aMatrix s).det ≠ 0 := by
    rw [detA]
    exact pow_ne_zero 2 hdet
  obtain ⟨c, hsome, hAc⟩ :
      ∃ c, coeffsFit s = some c ∧ (aMatrix s).mulVec c = bVector s :=
    ⟨_, by rw [coeffsFit, linSolve, if_neg hdet4], linSolve_mulVec hdet4⟩
  have e0 := congrFun hAc 0
  have e1 := congrFun hAc 1
  have e2 := congrFun hAc 2
  have e3 := congrFun hAc 3
  simp [Matrix.mulVec, Matrix.dotProduct, Fin.sum_univ_four, aMatrix, bVector] at e0 e1 e2 e3
  refine ⟨c, hsome, ⟨?_, ?_, ?_, ?_⟩, ?_, ?_, ?_, ?_, ?_, ?_⟩
  · ext i j
    fin_cases i <;> fin_cases j <;> simp [aMatrix, normalMat]
  · ext i j
    fin_cases i <;> fin_cases j <;> simp [aMatrix, normalMat]
  · ext i j
    fin_cases i <;> fin_cases j <;> simp [aMatrix, Matrix.vecHead, Matrix.vecTail]
  · ext i j
    fin_cases i <;> fin_cases j <;> simp [aMatrix, Matrix.vecHead, Matrix.vecTail]
  · funext i
    fin_cases i <;>
      simp [normalMat, Matrix.mulVec, Matrix.dotProduct, Fin.sum_univ_two] <;>
      linarith [e0, e1]
  · funext i
    fin_cases i <;>
      simp [normalMat, Matrix.mulVec, Matrix.dotProduct, Fin.sum_univ_two] <;>
      linarith [e2, e3]
  · intro a b hab
    have h1 := congrFun hab 0
    have h2 := congrFun hab 1
    simp [normalMat, Matrix.mulVec, Matrix.dotProduct, Fin.sum_univ_two] at h1 h2
    constructor
    · have key : (xsq s * ysq s - offDiag s ^ 2) *
          (a - c 0) = 0 := by
        linear_combination ysq s * h1 - ysq s * e0 - offDiag s * h2 + offDiag s * e1
      rcases mul_eq_zero.mp key with hk | hk
      · exact absurd hk hdet
      · linarith
    · have key : (xsq s * ysq s - offDiag s ^ 2) *
          (b - c 1) = 0 := by
        linear_combination xsq s * h2 - xsq s * e1 - offDiag s * h1 + offDiag s * e0
      rcases mul_eq_zero.mp key with hk | hk
      · exact absurd hk hdet
      · linarith
  · intro a b hab
    have h1 := congrFun hab 0
    have h2 := congrFun hab 1
    simp [normalMat, Matrix.mulVec, Matrix.dotProduct, Fin.sum_univ_two] at h1 h2
    constructor
    · have key : (xsq s * ysq s - offDiag s ^ 2) *
          (a - c 2) = 0 := by
        linear_combination ysq s * h1 - ysq s * e2 - offDiag s * h2 + offDiag s * e3
      rcases mul_eq_zero.mp key with hk | hk
      · exact absurd hk hdet
      · linarith
    · have key : (xsq s * ysq s - offDiag s ^ 2) *
          (b - c 3) = 0 := by
        linear_combination xsq s * h2 - xsq s * e3 - offDiag s * h1 + offDiag s * e2
      rcases mul_eq_zero.mp key with hk | hk
      · exact absurd hk hdet
      · linarith
  · intro a b
    exact ssr_min (fun p => p.u) s _ _ (by linarith [e0]) (by linarith [e1]) a b
  · intro a b
    exact ssr_min (fun p => p.v) s _ _ (by linarith [e2]) (by linarith [e3]) a b

/-- C3 witness: the least-squares theorem applied to the concrete
non-degenerate sample set `[(dx,dy,u,v)] = [(1,0,1,0), (0,1,0,1)]`. -/
theorem C3_least_squares_witness :
    xsq [⟨1, 0, 1, 0⟩, ⟨0, 1, 0, 1⟩] * ysq [⟨1, 0, 1, 0⟩, ⟨0, 1, 0, 1⟩] -
      offDiag [⟨1, 0, 1, 0⟩, ⟨0, 1, 0, 1⟩] ^ 2 ≠ 0 ∧
    ∃ c : Fin 4 → ℝ, coeffsFit [⟨1, 0, 1, 0⟩, ⟨0, 1, 0, 1⟩] = some c ∧
      (∀ a b : ℝ, ssr (fun p => p.u) [⟨1, 0, 1, 0⟩, ⟨0, 1, 0, 1⟩] (c 0) (c 1) ≤
        ssr (fun p => p.u) [⟨1, 0, 1, 0⟩, ⟨0, 1, 0, 1⟩] a b) := by
  have hd : xsq [(⟨1, 0, 1, 0⟩ : FitSample), ⟨0, 1, 0, 1⟩] *
      ysq [(⟨1, 0, 1, 0⟩ : FitSample), ⟨0, 1, 0, 1⟩] -
      offDiag [(⟨1, 0, 1, 0⟩ : FitSample), ⟨0, 1, 0, 1⟩] ^ 2 ≠ 0 := by
    norm_num [xsq, ysq, offDiag]
  obtain ⟨c, hc, -, -, -, -, -, hmin, -⟩ := C3_least_squares _ hd
  exact ⟨hd, c, hc, hmin⟩

/-! ### Claims C4 and C5: the sampling grid and the degenerate solve -/

lemma arange_length (start stop step : ℝ) :
    (arange start stop step).length = (⌈(stop - start) / step⌉).toNat := by
  rw [arange, List.length_map, List.length_range]

lemma length_flatMap_map {α β γ : Type*} (l : List α) (m : List β) (g : α → β → γ) :
    (l.flatMap fun x => m.map (g x)).length = l.length * m.length := by
  induction l with
  | nil => simp
  | cons a t ih =>
    simp only [List.flatMap_cons, List.length_append, List.length_map, ih,
      List.length_cons, Nat.succ_mul]
    exact Nat.add_comm _ _

/-- C4 (code bug): on the tangent-pixel bounding box `[0,2] x [0,8]` the
sampling loops of lines 302-308 produce a 3 x 9 = 27-point grid, because the
inner (y) loop steps by `dx` — half the x-extent — with stop margin
`0.5*dx`, even though `dy` is computed (and never used) on line 303.  The
spec's rule, with the y loop stepped by `dy`, yields the 3 x 3 = 9-point
grid the claim describes. -/
theorem C4_grid_bug :
    (sampleGrid 0 2 0 8).length = 27 ∧ (specSampleGrid 0 2 0 8).length = 9 := by
  have c52 : ⌈(5 / 2 : ℝ)⌉ = 3 := by
    rw [Int.ceil_eq_iff]
    norm_num
  constructor
  · simp only [sampleGrid]
    rw [length_flatMap_map, arange_length, arange_length]
    have h1 : ((2 : ℝ) + 0.5 * (0.5 * (2 - 0)) - 0) / (0.5 * (2 - 0)) = 5 / 2 := by norm_num
    have h2 : ((8 : ℝ) + 0.5 * (0.5 * (2 - 0)) - 0) / (0.5 * (2 - 0)) = 17 / 2 := by norm_num
    have c2 : ⌈(17 / 2 : ℝ)⌉ = 9 := by
      rw [Int.ceil_eq_iff]
      norm_num
    rw [h1, h2, c52, c2]
    rfl
  · simp only [specSampleGrid]
    rw [length_flatMap_map, arange_length, arange_length]
    have h1 : ((2 : ℝ) + 0.5 * (0.5 * (2 - 0)) - 0) / (0.5 * (2 - 0)) = 5 / 2 := by norm_num
    have h2 : ((8 : ℝ) + 0.5 * (0.5 * (8 - 0)) - 0) / (0.5 * (8 - 0)) = 5 / 2 := by norm_num
    rw [h1, h2, c52]
    rfl

/-- C5: a degenerate sample set — all pixel x-offsets zero, or all pixel
y-offsets zero — makes the 4x4 matrix of line 351 singular, and the solve of
line 358 reports the failure (`numpy.linalg.LinAlgError`, modelled as
`none`) instead of returning coefficients. -/
theorem C5_degenerate_fit_fails (s : List FitSample)
    (h : (∀ p ∈ s, p.dx = 0) ∨ (∀ p ∈ s, p.dy = 0)) :
    coeffsFit s = none := by
  have hdet : (aMatrix s).det = 0 := by
    rw [detA]
    rcases h with h | h
    · have hx : xsq s = 0 := by
        rw [xsq]
        apply List.sum_eq_zero
        intro x hx
        obtain ⟨p, hp, rfl⟩ := List.mem_map.mp hx
        rw [h p hp]
        ring
      have ho : offDiag s = 0 := by
        rw [offDiag]
        apply List.sum_eq_zero
        intro x hx
        obtain ⟨p, hp, rfl⟩ := List.mem_map.mp hx
        rw [h p hp]
        ring
      rw [hx, ho]
      ring
    · have hy : ysq s = 0 := by
        rw [ysq]
        apply List.sum_eq_zero
        intro x hx
        obtain ⟨p, hp, rfl⟩ := List.mem_map.mp hx
        rw [h p hp]
        ring
      have ho : offDiag s = 0 := by
        rw [offDiag]
        apply List.sum_eq_zero
        intro x hx
        obtain ⟨p, hp, rfl⟩ := List.mem_map.mp hx
        rw [h p hp]
        ring
      rw [hy, ho]
      ring
  rw [coeffsFit, linSolve, if_pos hdet]

/-- C5 witness: the degenerate-fit theorem applied to the concrete sample
set `[(dx,dy,u,v)] = [(0,1,2,3)]`, in which every `dx` is zero. -/
theorem C5_degenerate_fit_fails_witness :
    (∀ p ∈ [({ dx := 0, dy := 1, u := 2, v := 3 } : FitSample)], p.dx = 0) ∧
    coeffsFit [({ dx := 0, dy := 1, u := 2, v := 3 } : FitSample)] = none := by
  have h : ∀ p ∈ [({ dx := 0, dy := 1, u := 2, v := 3 } : FitSample)], p.dx = 0 := by
    intro p hp
    rw [List.mem_singleton] at hp
    rw [hp]
  exact ⟨h, C5_degenerate_fit_fails _ (Or.inl h)⟩

end

end WcsUtils
